import Mathlib

/-!
Shallow embedding of the task-queue / peer-gossip core of the zkevm-chain
prover coordinator (`src/common/src/prover.rs`, `src/prover/src/shared_state.rs`,
`src/prover/src/circuit_autogen.rs`, `src/prover/src/bin/prover_rpcd.rs`).

Strings stay `String`, machine integers become `Nat` (with `% 2 ^ w` where the
source truncates, e.g. `as u8` / `as u32`), `Vec` becomes `List`,
`Option`/`Result` become `Option`/`Except`, and the `HashMap` proving-key cache
becomes an association list whose `insert` conses in front (so a later insert
shadows an earlier binding, as `HashMap::insert` overwrites).  Network calls
are modelled by passing the list of fetched peer answers as an argument;
wall-clock measurements are modelled by passing the measured millisecond
durations as arguments.
-/

set_option linter.unusedVariables false

namespace ZkevmChain

/-- `RequestExtraInstance` from `src/common/src/prover.rs` (hex strings stay
strings; `u32`/`u64` fields become `Nat`). -/
structure RequestExtraInstance where
  l1_signal_service : String
  l2_signal_service : String
  l2_contract : String
  meta_hash : String
  block_hash : String
  parent_hash : String
  signal_root : String
  graffiti : String
  prover : String
  gas_used : Nat
  parent_gas_used : Nat
  block_max_gas_limit : Nat
  max_transactions_per_block : Nat
  max_bytes_per_tx_list : Nat
  deriving DecidableEq

instance : Inhabited RequestExtraInstance :=
  ⟨⟨"", "", "", "", "", "", "", "", "", 0, 0, 0, 0, 0⟩⟩

/-- `ProofRequestOptions` from `src/common/src/prover.rs`. -/
structure ProofRequestOptions where
  circuit : String
  block : Nat
  rpc : String
  protocol_instance : RequestExtraInstance
  retry : Bool
  param : Option String
  mock : Bool
  aggregate : Bool
  mock_feedback : Bool
  verify_proof : Bool
  deriving DecidableEq

/-- The hand-written `impl PartialEq for ProofRequestOptions`
(`src/common/src/prover.rs:156-179`), field comparisons in source order.
`retry`, `mock_feedback` and `verify_proof` are not compared. -/
def optionsEq (a b : ProofRequestOptions) : Bool :=
  a.block == b.block
    && a.protocol_instance.prover == b.protocol_instance.prover
    && a.protocol_instance.l1_signal_service == b.protocol_instance.l1_signal_service
    && a.protocol_instance.l2_signal_service == b.protocol_instance.l2_signal_service
    && a.protocol_instance.l2_contract == b.protocol_instance.l2_contract
    && a.protocol_instance.block_hash == b.protocol_instance.block_hash
    && a.protocol_instance.parent_hash == b.protocol_instance.parent_hash
    && a.protocol_instance.meta_hash == b.protocol_instance.meta_hash
    && a.protocol_instance.signal_root == b.protocol_instance.signal_root
    && a.protocol_instance.graffiti == b.protocol_instance.graffiti
    && a.protocol_instance.gas_used == b.protocol_instance.gas_used
    && a.protocol_instance.parent_gas_used == b.protocol_instance.parent_gas_used
    && a.protocol_instance.max_bytes_per_tx_list == b.protocol_instance.max_bytes_per_tx_list
    && a.protocol_instance.block_max_gas_limit == b.protocol_instance.block_max_gas_limit
    && a.protocol_instance.max_transactions_per_block == b.protocol_instance.max_transactions_per_block
    && a.rpc == b.rpc
    && a.param == b.param
    && a.circuit == b.circuit
    && a.mock == b.mock
    && a.aggregate == b.aggregate

/-- The tuple of fields that `optionsEq` actually compares (task identity). -/
def identityKey (a : ProofRequestOptions) :
    Nat × RequestExtraInstance × String × Option String × String × Bool × Bool :=
  (a.block, a.protocol_instance, a.rpc, a.param, a.circuit, a.mock, a.aggregate)

theorem optionsEq_iff_key (a b : ProofRequestOptions) :
    optionsEq a b = true ↔ identityKey a = identityKey b := by
  cases a with
  | mk ac ab ar api aretry aparam am aag amf av =>
    cases b with
    | mk bc bb br bpi bretry bparam bm bag bmf bv =>
      cases api; cases bpi
      simp only [optionsEq, identityKey, Bool.and_eq_true, beq_iff_eq,
        Prod.mk.injEq, RequestExtraInstance.mk.injEq]
      tauto

theorem optionsEq_refl (a : ProofRequestOptions) : optionsEq a a = true := by
  rw [optionsEq_iff_key]

theorem optionsEq_symm {a b : ProofRequestOptions} (h : optionsEq a b = true) :
    optionsEq b a = true := by
  rw [optionsEq_iff_key] at h ⊢
  exact h.symm

theorem optionsEq_trans {a b c : ProofRequestOptions} (h₁ : optionsEq a b = true)
    (h₂ : optionsEq b c = true) : optionsEq a c = true := by
  rw [optionsEq_iff_key] at h₁ h₂ ⊢
  exact h₁.trans h₂

theorem optionsEq_congr {a b : ProofRequestOptions} (c : ProofRequestOptions)
    (h : optionsEq a b = true) : optionsEq a c = optionsEq b c := by
  rcases hbc : optionsEq b c with _ | _
  · rcases hac : optionsEq a c with _ | _
    · rfl
    · exact absurd (optionsEq_trans (optionsEq_symm h) hac) (by simp [hbc])
  · exact optionsEq_trans h hbc

/-- `ProofResultInstrumentation` (`src/common/src/prover.rs`): millisecond
timings, `u32` in the source. -/
structure ProofResultInstrumentation where
  vk : Nat
  pk : Nat
  proof : Nat
  verify : Nat
  mock : Nat
  circuit : Nat
  protocol : Nat
  deriving DecidableEq

instance : Inhabited ProofResultInstrumentation := ⟨⟨0, 0, 0, 0, 0, 0, 0⟩⟩

/-- `ProofResult` (`src/common/src/prover.rs`).  The source field `instance`
(a Lean keyword) is renamed to `instance_values`; bytes and field elements are
opaque `Nat` lists. -/
structure ProofResult where
  proof : List Nat
  instance_values : List Nat
  k : Nat
  randomness : List Nat
  label : String
  aux : ProofResultInstrumentation
  deriving DecidableEq

instance : Inhabited ProofResult := ⟨⟨[], [], 0, [], "", default⟩⟩

/-- `CircuitConfig` (`src/common/src/prover.rs`). -/
structure CircuitConfig where
  block_gas_limit : Nat
  max_txs : Nat
  max_calldata : Nat
  max_bytecode : Nat
  max_rws : Nat
  max_copy_rows : Nat
  max_exp_steps : Nat
  min_k : Nat
  pad_to : Nat
  min_k_aggregation : Nat
  keccak_padding : Nat
  deriving DecidableEq

instance : Inhabited CircuitConfig := ⟨⟨0, 0, 0, 0, 0, 0, 0, 0, 0, 0, 0⟩⟩

/-- `Proofs` (`src/common/src/prover.rs`). -/
structure Proofs where
  config : CircuitConfig
  circuit : ProofResult
  aggregation : ProofResult
  gas : Nat
  deriving DecidableEq

instance : DecidableEq (Except String Proofs) := fun a b =>
  match a, b with
  | .error x, .error y =>
    if h : x = y then .isTrue (by rw [h]) else .isFalse (by simp [h])
  | .ok x, .ok y =>
    if h : x = y then .isTrue (by rw [h]) else .isFalse (by simp [h])
  | .error _, .ok _ => .isFalse (by simp)
  | .ok _, .error _ => .isFalse (by simp)

/-- `ProofRequest` (`src/common/src/prover.rs`): one task record. -/
structure ProofRequest where
  options : ProofRequestOptions
  result : Option (Except String Proofs)
  edition : Nat
  deriving DecidableEq

/-- `NodeStatus` (`src/common/src/prover.rs`): answer of a peer's `status` RPC. -/
structure NodeStatus where
  id : String
  task : Option ProofRequestOptions
  obtained : Bool
  deriving DecidableEq

/-- `NodeInformation` (`src/common/src/prover.rs`): answer of a peer's `info` RPC. -/
structure NodeInformation where
  id : String
  tasks : List ProofRequest

/-- `RoState` (`src/prover/src/shared_state.rs`). -/
structure RoState where
  node_id : String
  node_lookup : Option String

/-- `RwState` (`src/prover/src/shared_state.rs`): the mutex-guarded mutable
region.  The `HashMap<String, Arc<ProverKey>>` key cache becomes an association
list (keys to opaque `Nat` handles). -/
structure RwState where
  tasks : List ProofRequest
  pk_cache : List (String × Nat)
  pending : Option ProofRequestOptions
  obtained : Bool
  deriving DecidableEq

/-- `Result::is_err` on a task result. -/
def is_err : Except String Proofs → Bool
  | .error _ => true
  | .ok _ => false

/-- Lexicographic order on character lists, first difference decides, a proper
prefix is smaller — the order Rust's `String: Ord` induces (byte-wise there,
codepoint-wise here; identical on the ASCII hex node ids of this program). -/
def charListLt : List Char → List Char → Bool
  | [], [] => false
  | [], _ :: _ => true
  | _ :: _, [] => false
  | a :: as, b :: bs =>
    if a.toNat < b.toNat then true
    else if b.toNat < a.toNat then false
    else charListLt as bs

/-- Rust's `<` on `String` (so `peer.id > self.id` is `string_lt self.id peer.id`). -/
def string_lt (a b : String) : Bool := charListLt a.data b.data

/-! ## Task queue operations (`src/prover/src/shared_state.rs`) -/

/-- First index of a task whose `options` compare equal to `o`
(`rw.tasks.iter_mut().find(|e| e.options == *options)`). -/
def findTaskIdx? (o : ProofRequestOptions) : List ProofRequest → Option Nat
  | [] => none
  | t :: rest =>
    if optionsEq t.options o then some 0
    else (findTaskIdx? o rest).map (· + 1)

/-- The task-list part of `SharedState::get_or_enqueue`
(`src/prover/src/shared_state.rs:317-355`): scan for the first task whose
options compare equal; on the found task act on its `result` and the `retry`
flag; if nothing matches, push a fresh task (`edition = 0`, no result) at the
end.  Returns the source's return value together with the updated task list. -/
def enqueueTasks (o : ProofRequestOptions) :
    List ProofRequest → Option (Except String Proofs) × List ProofRequest
  | [] => (none, [⟨o, none, 0⟩])
  | t :: rest =>
    if optionsEq t.options o then
      match t.result with
      | some r =>
        if o.retry && is_err r then
          (none, ⟨t.options, none, t.edition + 1⟩ :: rest)
        else
          (some r, t :: rest)
      | none => (none, t :: rest)
    else
      let p := enqueueTasks o rest
      (p.1, t :: p.2)

/-- `SharedState::get_or_enqueue` on the whole mutable state. -/
def get_or_enqueue (s : RwState) (o : ProofRequestOptions) :
    Option (Except String Proofs) × RwState :=
  let p := enqueueTasks o s.tasks
  (p.1, { s with tasks := p.2 })

/-- One iteration of the loop body of `SharedState::merge_tasks`
(`src/prover/src/shared_state.rs:671-695`): find the first local task whose
options compare equal to the peer task's; keep it if its edition is already
`>=` the peer's, otherwise copy the peer's `edition` and `result` into it; if
no local task matches, push the peer task verbatim. -/
def mergeOne : List ProofRequest → ProofRequest → List ProofRequest
  | [], p => [p]
  | t :: rest, p =>
    if optionsEq t.options p.options then
      if p.edition ≤ t.edition then t :: rest
      else ⟨t.options, p.result, p.edition⟩ :: rest
    else t :: mergeOne rest p

/-- `SharedState::merge_tasks`: fold the peer's task list into the local one. -/
def merge_tasks (tasks : List ProofRequest) (peer_tasks : List ProofRequest) :
    List ProofRequest :=
  peer_tasks.foldl mergeOne tasks

/-- The task-list part of the result-publication epilogue of
`SharedState::duty_cycle` (`src/prover/src/shared_state.rs:548-570`): find the
first task whose options compare equal and set its `result`, bumping `edition`
by one; if none remains, leave the list untouched. -/
def publishTasks (o : ProofRequestOptions) (r : Except String Proofs) :
    List ProofRequest → List ProofRequest
  | [] => []
  | t :: rest =>
    if optionsEq t.options o then
      ⟨t.options, some r, t.edition + 1⟩ :: rest
    else t :: publishTasks o r rest

/-- The whole mutex-guarded epilogue of `SharedState::duty_cycle`
(`src/prover/src/shared_state.rs:548-570`): clear `pending` and `obtained`,
then publish the computed result into the still-present matching task. -/
def publish_result (s : RwState) (o : ProofRequestOptions)
    (r : Except String Proofs) : RwState :=
  { s with pending := none, obtained := false, tasks := publishTasks o r s.tasks }

/-! ## Peer race (`SharedState::obtain_task`, `src/prover/src/shared_state.rs:702-756`) -/

/-- The peer loop of `obtain_task`.  Each list entry is the outcome of one
`status` RPC (`Except.error` models a failed call, which aborts the whole
function with that error, as `?` does in the source).  A peer whose `id`
equals our own is skipped; a peer whose reported task compares equal to our
pending task makes us continue only if that peer has not `obtained` it and its
id is lexicographically greater than ours — otherwise we lose immediately. -/
def obtainLoop (node_id : String) (t : ProofRequestOptions) :
    List (Except String NodeStatus) → Except String Bool
  | [] => .ok true
  | .error e :: _ => .error e
  | .ok peer :: rest =>
    if peer.id = node_id then obtainLoop node_id t rest
    else
      match peer.task with
      | some peer_task =>
        if optionsEq peer_task t then
          if !peer.obtained && string_lt node_id peer.id then obtainLoop node_id t rest
          else .ok false
        else obtainLoop node_id t rest
      | none => obtainLoop node_id t rest

/-- `SharedState::obtain_task`: read the pending task (the source's
`.expect("pending task")` panic is modelled as that error), return `true`
immediately when no peer lookup is configured, else run the race over the
fetched peer statuses.  The mutable state is returned alongside: the source
only ever reads it. -/
def obtain_task (ro : RoState) (s : RwState)
    (peers : List (Except String NodeStatus)) : Except String Bool × RwState :=
  match s.pending with
  | none => (.error "pending task", s)
  | some t =>
    if ro.node_lookup.isNone then (.ok true, s)
    else (obtainLoop ro.node_id t peers, s)

/-! ## Proving-key cache (`SharedState::gen_pk`, `src/prover/src/shared_state.rs:627-669`) -/

/-- `SharedState::gen_pk`.  The outcomes of `keygen_vk` and `keygen_pk` and
their measured millisecond durations are passed in (`vk_outcome`,
`pk_outcome`, `vk_millis`, `pk_millis`); proving keys are opaque `Nat`
handles.  If the cache already holds `cache_key` the cached key is returned
and the instrumentation is untouched; otherwise the vk and pk are generated
(either failure propagates as in the source's `?`), the timings are recorded
(`as u32`), the key is inserted and returned.  No timeout of any kind wraps
the generation. -/
def gen_pk (s : RwState) (cache_key : String) (vk_outcome : Except String Unit)
    (pk_outcome : Except String Nat) (vk_millis pk_millis : Nat)
    (aux : ProofResultInstrumentation) :
    Except String Nat × RwState × ProofResultInstrumentation :=
  match s.pk_cache.lookup cache_key with
  | some pk => (.ok pk, s, aux)
  | none =>
    match vk_outcome with
    | .error e => (.error e, s, aux)
    | .ok _ =>
      let aux := { aux with vk := vk_millis % 2 ^ 32 }
      match pk_outcome with
      | .error e => (.error e, s, aux)
      | .ok pk =>
        let aux := { aux with pk := pk_millis % 2 ^ 32 }
        (.ok pk, { s with pk_cache := (cache_key, pk) :: s.pk_cache }, aux)

/-! ## Circuit parameter table (`src/prover/src/circuit_autogen.rs`) -/

/-- The gas-used table `match_circuit_params!`
(`src/prover/src/circuit_autogen.rs:2-37`), the variant `duty_cycle` applies
to `witness.gas_used()`.  The two source ranges are `0..=63000` (with
`min_k = 20`) and `63001..=300000` (with `min_k = 23`); anything else takes
the error arm, modelled as `none`.  The source's config literals do not
mention `max_copy_rows` / `max_exp_steps`; they are 0 here. -/
def match_circuit_params (gas_used : Nat) : Option CircuitConfig :=
  if gas_used ≤ 63000 then
    some { block_gas_limit := 63000, max_txs := 3, max_calldata := 10500,
           max_bytecode := 24634, max_rws := 476052, max_copy_rows := 0,
           max_exp_steps := 0, min_k := 20, pad_to := 476052,
           min_k_aggregation := 26, keccak_padding := 336000 }
  else if gas_used ≤ 300000 then
    some { block_gas_limit := 300000, max_txs := 14, max_calldata := 69750,
           max_bytecode := 139500, max_rws := 3161966, max_copy_rows := 0,
           max_exp_steps := 0, min_k := 23, pad_to := 3161966,
           min_k_aggregation := 26, keccak_padding := 1600000 }
  else none

/-! ## Mock branch of `compute_proof` (`src/prover/src/shared_state.rs:89-114`) -/

/-- The `task_options.mock` branch of `compute_proof`
(`src/prover/src/shared_state.rs:89-114`).  Both `ProofResult`s start from
`Default` with only their labels set (`"{circuit}-{gas_limit}"` and
`"{circuit}-{gas_limit}-a"`).  The mock branch sets `k := min_k as u8` and the
collected public instance, runs the `MockProver` (`mock_run` is its outcome;
an `error` models the propagated `.expect` panic) and stores the measured
milliseconds (`as u32`) into `aux.mock`.  Nothing else is touched; the
aggregation result keeps its defaults. -/
def compute_proof_mock (task_options : ProofRequestOptions)
    (circuit_config : CircuitConfig) (circuit_instance : List Nat)
    (mock_run : Except String Unit) (mock_millis : Nat) :
    Except String (CircuitConfig × ProofResult × ProofResult) :=
  let circuit_proof : ProofResult :=
    { (default : ProofResult) with
      label := task_options.circuit ++ "-" ++ toString circuit_config.block_gas_limit }
  let aggregation_proof : ProofResult :=
    { (default : ProofResult) with
      label := task_options.circuit ++ "-" ++ toString circuit_config.block_gas_limit ++ "-a" }
  let circuit_proof :=
    { circuit_proof with
      k := circuit_config.min_k % 2 ^ 8,
      instance_values := circuit_instance }
  match mock_run with
  | .error e => .error e
  | .ok _ =>
    let circuit_proof :=
      { circuit_proof with
        aux := { circuit_proof.aux with mock := mock_millis % 2 ^ 32 } }
    .ok (circuit_config, circuit_proof, aggregation_proof)

/-! ## `MAX_TASKS` parsing (`src/prover/src/bin/prover_rpcd.rs:29-32`) -/

/-- Decimal digit accumulation for `str::parse::<usize>`: fails on any
non-digit character. -/
def parseDecimalAux : List Char → Nat → Option Nat
  | [], acc => some acc
  | c :: cs, acc =>
    if c.toNat < 48 ∨ 57 < c.toNat then none
    else parseDecimalAux cs (acc * 10 + (c.toNat - 48))

/-- `var("MAX_TASKS").unwrap_or_else(|_| "240".to_string()).parse::<usize>()`
(`src/prover/src/bin/prover_rpcd.rs:29-32`): the environment value (or the
default string `"240"`) parsed as a decimal number; `none` models the `expect`
panic on an unparsable value. -/
def parse_max_tasks (env : Option String) : Option Nat :=
  match (env.getD "240").data with
  | [] => none
  | cs => parseDecimalAux cs 0

/-! ## Concrete fixtures used by witnesses and counterexamples -/

instance : DecidableEq (Except String Bool) := fun a b =>
  match a, b with
  | .error x, .error y =>
    if h : x = y then .isTrue (by rw [h]) else .isFalse (by simp [h])
  | .ok x, .ok y =>
    if h : x = y then .isTrue (by rw [h]) else .isFalse (by simp [h])
  | .error _, .ok _ => .isFalse (by simp)
  | .ok _, .error _ => .isFalse (by simp)

/-- An all-empty protocol instance for concrete test values. -/
def emptyInstance : RequestExtraInstance :=
  ⟨"", "", "", "", "", "", "", "", "", 0, 0, 0, 0, 0⟩

/-- Concrete mock-flagged options, distinguished by block number. -/
def sampleOptions (block : Nat) : ProofRequestOptions :=
  ⟨"super", block, "", emptyInstance, false, none, true, false, false, false⟩

/-- Same options but with `retry` set (equal to `sampleOptions block` under
`optionsEq`, since `retry` is not part of task identity). -/
def retryOptions (block : Nat) : ProofRequestOptions :=
  ⟨"super", block, "", emptyInstance, true, none, true, false, false, false⟩

/-- Node `"aa"` with a peer lookup configured and `sampleOptions 10` pending. -/
def nodeA : RoState := ⟨"aa", some "prover:1234"⟩

def stateA : RwState :=
  ⟨[⟨sampleOptions 10, none, 0⟩], [], some (sampleOptions 10), false⟩

/-- Peer `"bb"` reporting the same task, not yet obtained. -/
def peerB : NodeStatus := ⟨"bb", some (sampleOptions 10), false⟩

/-- The circuit config the gas-used table yields for gas 100. -/
def config100 : CircuitConfig := (match_circuit_params 100).getD default

/-- A queue holding `MAX_TASKS = 240` (the default) pairwise-distinct tasks. -/
def fullQueue : List ProofRequest :=
  (List.range 240).map (fun i => ⟨sampleOptions i, none, 0⟩)

/-- The spec's uniqueness invariant: any two entries of a task list have
options that compare unequal (under the task-identity equality). -/
def TasksUnique (ts : List ProofRequest) : Prop :=
  List.Pairwise (fun a b => optionsEq a.options b.options = false) ts

end ZkevmChain

namespace ZkevmChain

/-- **C9.** Task identity: two `ProofRequestOptions` compare equal iff block
number, the whole protocol instance, rpc endpoint, param path, circuit tag,
`mock` and `aggregate` agree; and changing only `retry`, `mock_feedback` or
`verify_proof` never breaks equality. -/
theorem C9_options_identity (a b : ProofRequestOptions) :
    (optionsEq a b = true ↔
      (a.block = b.block ∧ a.protocol_instance = b.protocol_instance ∧
       a.rpc = b.rpc ∧ a.param = b.param ∧ a.circuit = b.circuit ∧
       a.mock = b.mock ∧ a.aggregate = b.aggregate)) ∧
    (∀ r mf v,
      optionsEq a { a with retry := r, mock_feedback := mf, verify_proof := v } = true) := by
  constructor
  · rw [optionsEq_iff_key]
    simp [identityKey, Prod.ext_iff]
  · intro r mf v
    rw [optionsEq_iff_key]
    rfl

/-- `obtain_task` only reads the shared state. -/
theorem obtain_task_state_eq (ro : RoState) (s : RwState)
    (peers : List (Except String NodeStatus)) : (obtain_task ro s peers).2 = s := by
  unfold obtain_task
  cases s.pending <;> simp only
  split <;> rfl

/-- **C10.** `obtain_task` never mutates the shared mutable state: from any
pre-state whose `pending` is set, the task list, the key cache, `pending` and
`obtained` are all unchanged, whatever the call returns. -/
theorem C10_obtain_task_frame (ro : RoState) (s : RwState) (t : ProofRequestOptions)
    (peers : List (Except String NodeStatus)) (hp : s.pending = some t) :
    (obtain_task ro s peers).2.tasks = s.tasks ∧
    (obtain_task ro s peers).2.pk_cache = s.pk_cache ∧
    (obtain_task ro s peers).2.pending = s.pending ∧
    (obtain_task ro s peers).2.obtained = s.obtained := by
  rw [obtain_task_state_eq]
  exact ⟨rfl, rfl, rfl, rfl⟩

/-- Witness for C10 at a concrete state with a pending task. -/
theorem C10_witness :
    (obtain_task nodeA stateA [.ok peerB]).2.tasks = stateA.tasks ∧
    (obtain_task nodeA stateA [.ok peerB]).2.pk_cache = stateA.pk_cache ∧
    (obtain_task nodeA stateA [.ok peerB]).2.pending = stateA.pending ∧
    (obtain_task nodeA stateA [.ok peerB]).2.obtained = stateA.obtained :=
  C10_obtain_task_frame nodeA stateA (sampleOptions 10) [.ok peerB] rfl

/-- **C6 counterexample.** The claim says key generation is bounded by a
15-minute (900000 ms) wall-clock timeout and fails with `"timeout"` on expiry.
In the code `gen_pk` calls `keygen_vk`/`keygen_pk` directly, with no timeout:
a key generation observed to take 960000 ms (16 minutes) still succeeds. -/
theorem C6_counterexample :
    (gen_pk ⟨[], [], none, false⟩ "super-21-config" (.ok ()) (.ok 7) 960000 0
        default).1 = .ok 7 ∧
    15 * 60 * 1000 < 960000 := by
  exact ⟨rfl, by decide⟩

/-- **C6 amended.** `gen_pk` enforces no timeout at all: its outcome is
independent of the measured wall-clock durations (they are only recorded into
the instrumentation), and it returns an `"timeout"` error only if
`keygen_vk`/`keygen_pk` themselves fail with exactly that error string. -/
theorem C6_amended_no_timeout (s : RwState) (key : String)
    (vk_outcome : Except String Unit) (pk_outcome : Except String Nat)
    (d₁ d₂ d₁' d₂' : Nat) (aux : ProofResultInstrumentation) :
    ((gen_pk s key vk_outcome pk_outcome d₁ d₂ aux).1 =
      (gen_pk s key vk_outcome pk_outcome d₁' d₂' aux).1) ∧
    (∀ e, (gen_pk s key vk_outcome pk_outcome d₁ d₂ aux).1 = .error e →
      vk_outcome = .error e ∨ pk_outcome = .error e) := by
  unfold gen_pk
  rcases s.pk_cache.lookup key with _ | pk
  · rcases vk_outcome with e | u
    · simp
    · rcases pk_outcome with e | pk <;> simp
  · simp

/-- Witness for C6 amended: a failing `keygen_vk` is the only way to see its
error surface from `gen_pk`. -/
theorem C6_witness :
    ((Except.error "boom" : Except String Unit) = .error "boom" ∨
      (Except.ok 7 : Except String Nat) = .error "boom") ∧
    ((gen_pk ⟨[], [], none, false⟩ "k" (.error "boom") (.ok 7) 1 2 default).1 =
      (gen_pk ⟨[], [], none, false⟩ "k" (.error "boom") (.ok 7) 3 4 default).1) :=
  ⟨(C6_amended_no_timeout ⟨[], [], none, false⟩ "k" (.error "boom") (.ok 7) 1 2 3 4
      default).2 "boom" rfl,
   (C6_amended_no_timeout ⟨[], [], none, false⟩ "k" (.error "boom") (.ok 7) 1 2 3 4
      default).1⟩

/-- **C1 counterexample.** Spec scenario 5: node `"aa"`, peer `"bb"` reports
the same pending task with `obtained = false`; since `"bb" > "aa"` the claim
says `"aa"` loses (returns false).  The code continues past such a peer and
returns `true`: the greater peer id makes *us* win, not the peer. -/
theorem C1_counterexample :
    stateA.pending = some (sampleOptions 10) ∧
    peerB.task = some (sampleOptions 10) ∧
    peerB.obtained = false ∧
    string_lt nodeA.node_id peerB.id = true ∧
    (obtain_task nodeA stateA [.ok peerB]).1 = .ok true := by
  refine ⟨rfl, rfl, rfl, by decide, ?_⟩
  rfl

/-- **C5 counterexample.** For gas used 100 the gas table row is
`0..=63000` with `min_k = 20`, not 19 (19 is the `match_circuit_params_txs`
variant's value); the mock branch therefore reports `k = 20`. -/
theorem C5_counterexample :
    match_circuit_params 100 = some config100 ∧
    config100.min_k = 20 ∧
    (compute_proof_mock (sampleOptions 10) config100 [] (.ok ()) 5).map
      (fun r => r.2.1.k) = .ok 20 ∧
    (20 : Nat) ≠ 19 := by
  refine ⟨rfl, rfl, rfl, by decide⟩

set_option maxRecDepth 10000 in
/-- **C4.** There is no pruning in this version: `MAX_TASKS` is parsed (240 by
default) by `prover_rpcd.rs` but `get_or_enqueue` pushes without ever calling
any prune routine, so a 241st distinct task grows the queue beyond 240. -/
theorem C4_no_pruning :
    parse_max_tasks none = some 240 ∧
    (get_or_enqueue ⟨fullQueue, [], none, false⟩ (sampleOptions 240)).2.tasks.length = 241 ∧
    240 < 241 := by
  refine ⟨by decide, by decide, by decide⟩

end ZkevmChain

namespace ZkevmChain

theorem obtainLoop_ok_exists (nid : String) (t : ProofRequestOptions)
    (ss : List NodeStatus) : ∃ b, obtainLoop nid t (ss.map Except.ok) = .ok b := by
  induction ss with
  | nil => exact ⟨true, rfl⟩
  | cons p ss ih =>
    simp only [List.map_cons, obtainLoop]
    by_cases hid : p.id = nid
    · rw [if_pos hid]; exact ih
    · rw [if_neg hid]
      cases hpt : p.task with
      | none => exact ih
      | some pt =>
        dsimp only
        by_cases heq : optionsEq pt t = true
        · rw [if_pos heq]
          by_cases hwin : (!p.obtained && string_lt nid p.id) = true
          · rw [if_pos hwin]; exact ih
          · rw [if_neg hwin]; exact ⟨false, rfl⟩
        · rw [if_neg heq]; exact ih

theorem obtainLoop_ok_true_iff (nid : String) (t : ProofRequestOptions)
    (ss : List NodeStatus) :
    obtainLoop nid t (ss.map Except.ok) = .ok true ↔
      ∀ p ∈ ss, p.id ≠ nid → ∀ pt, p.task = some pt → optionsEq pt t = true →
        p.obtained = false ∧ string_lt nid p.id = true := by
  induction ss with
  | nil => simp [obtainLoop]
  | cons p ss ih =>
    simp only [List.map_cons, obtainLoop]
    by_cases hid : p.id = nid
    · rw [if_pos hid, ih]
      simp [List.mem_cons, forall_eq_or_imp, hid]
    · rw [if_neg hid]
      cases hpt : p.task with
      | none => simp [List.mem_cons, forall_eq_or_imp, hid, hpt, ih]
      | some pt =>
        dsimp only
        by_cases heq : optionsEq pt t = true
        · rw [if_pos heq]
          by_cases hob : p.obtained = true
          · have hcond : ¬((!p.obtained && string_lt nid p.id) = true) := by simp [hob]
            rw [if_neg hcond]
            simp [List.mem_cons, forall_eq_or_imp, hid, hpt, heq, hob]
          · have hob' : p.obtained = false := Bool.eq_false_iff.mpr hob
            by_cases hlt : string_lt nid p.id = true
            · have hcond : (!p.obtained && string_lt nid p.id) = true := by
                simp [hob', hlt]
              rw [if_pos hcond, ih]
              simp [List.mem_cons, forall_eq_or_imp, hid, hpt, heq, hob', hlt]
            · have hlt' : string_lt nid p.id = false := Bool.eq_false_iff.mpr hlt
              have hcond : ¬((!p.obtained && string_lt nid p.id) = true) := by
                simp [hlt']
              rw [if_neg hcond]
              simp [List.mem_cons, forall_eq_or_imp, hid, hpt, heq, hlt']
        · rw [if_neg heq, ih]
          simp [List.mem_cons, forall_eq_or_imp, hid, hpt, heq]

/-- **C1 amended.** With a pending task and all peer calls succeeding:
without a peer lookup `obtain_task` wins; with one, it wins exactly when
every other peer that reports the same task has not obtained it *and* has an
id lexicographically greater than ours (losing to an obtained peer or to one
whose id is not greater) — the opposite tie-break direction from the claim. -/
theorem C1_amended_obtain_race (ro : RoState) (s : RwState) (t : ProofRequestOptions)
    (statuses : List NodeStatus) (hp : s.pending = some t) :
    (ro.node_lookup = none → (obtain_task ro s (statuses.map Except.ok)).1 = .ok true) ∧
    (ro.node_lookup ≠ none →
      ((obtain_task ro s (statuses.map Except.ok)).1 = .ok true ↔
        ∀ p ∈ statuses, p.id ≠ ro.node_id →
          ∀ pt, p.task = some pt → optionsEq pt t = true →
            p.obtained = false ∧ string_lt ro.node_id p.id = true)) ∧
    (∃ b, (obtain_task ro s (statuses.map Except.ok)).1 = .ok b) := by
  refine ⟨?_, ?_, ?_⟩
  · intro h
    simp [obtain_task, hp, h]
  · intro h
    have hn : ro.node_lookup.isNone = false := by
      cases hx : ro.node_lookup with
      | none => exact absurd hx h
      | some v => rfl
    simp only [obtain_task, hp, hn, Bool.false_eq_true, if_false]
    exact obtainLoop_ok_true_iff ro.node_id t statuses
  · cases hx : ro.node_lookup with
    | none => exact ⟨true, by simp [obtain_task, hp, hx]⟩
    | some v =>
      have := obtainLoop_ok_exists ro.node_id t statuses
      simpa [obtain_task, hp, hx] using this

/-- Witness for C1 amended at spec scenario 5 (nodes `"aa"`, `"bb"`). -/
theorem C1_witness :
    (obtain_task nodeA stateA ([peerB].map Except.ok)).1 = .ok true ↔
      ∀ p ∈ [peerB], p.id ≠ nodeA.node_id →
        ∀ pt, p.task = some pt → optionsEq pt (sampleOptions 10) = true →
          p.obtained = false ∧ string_lt nodeA.node_id p.id = true :=
  (C1_amended_obtain_race nodeA stateA (sampleOptions 10) [peerB] rfl).2.1
    (by simp [nodeA])

end ZkevmChain

namespace ZkevmChain

theorem findTaskIdx?_none_iff (o : ProofRequestOptions) (ts : List ProofRequest) :
    findTaskIdx? o ts = none ↔ ∀ t ∈ ts, optionsEq t.options o = false := by
  induction ts with
  | nil => simp [findTaskIdx?]
  | cons t rest ih =>
    simp only [findTaskIdx?]
    by_cases h : optionsEq t.options o = true
    · rw [if_pos h]
      simp [h]
    · rw [if_neg h]
      simp [List.mem_cons, forall_eq_or_imp, Bool.eq_false_iff.mpr h, ih,
        Option.map_eq_none']

theorem enqueueTasks_none (o : ProofRequestOptions) :
    ∀ ts : List ProofRequest, findTaskIdx? o ts = none →
      enqueueTasks o ts = (none, ts ++ [⟨o, none, 0⟩]) := by
  intro ts
  induction ts with
  | nil => intro _; rfl
  | cons t rest ih =>
    intro h
    simp only [findTaskIdx?] at h
    by_cases hm : optionsEq t.options o = true
    · rw [if_pos hm] at h
      cases h
    · rw [if_neg hm] at h
      have hrest : findTaskIdx? o rest = none := Option.map_eq_none'.mp h
      simp only [enqueueTasks, if_neg hm, ih hrest]
      rfl

theorem enqueueTasks_found (o : ProofRequestOptions) :
    ∀ (ts : List ProofRequest) (i : Nat), findTaskIdx? o ts = some i →
      ∃ t, ts[i]? = some t ∧ optionsEq t.options o = true ∧
        (∀ r, t.result = some r → (o.retry && is_err r) = false →
          enqueueTasks o ts = (some r, ts)) ∧
        (∀ r, t.result = some r → (o.retry && is_err r) = true →
          enqueueTasks o ts = (none, ts.set i ⟨t.options, none, t.edition + 1⟩)) ∧
        (t.result = none → enqueueTasks o ts = (none, ts)) := by
  intro ts
  induction ts with
  | nil => intro i h; cases h
  | cons t rest ih =>
    intro i h
    simp only [findTaskIdx?] at h
    by_cases hm : optionsEq t.options o = true
    · rw [if_pos hm] at h
      cases h
      refine ⟨t, by simp, hm, ?_, ?_, ?_⟩
      · intro r hr hc
        simp [enqueueTasks, if_pos hm, hr, hc]
      · intro r hr hc
        simp [enqueueTasks, if_pos hm, hr, hc]
      · intro hr
        simp [enqueueTasks, if_pos hm, hr]
    · rw [if_neg hm] at h
      obtain ⟨j, hj, rfl⟩ := Option.map_eq_some'.mp h
      obtain ⟨u, hu, hueq, hA, hB, hC⟩ := ih j hj
      refine ⟨u, by simpa [List.getElem?_cons_succ] using hu, hueq, ?_, ?_, ?_⟩
      · intro r hr hc
        simp [enqueueTasks, if_neg hm, hA r hr hc]
      · intro r hr hc
        simp [enqueueTasks, if_neg hm, hB r hr hc, List.set_cons_succ]
      · intro hr
        simp [enqueueTasks, if_neg hm, hC hr]

theorem enqueueTasks_idem (o : ProofRequestOptions) :
    ∀ ts : List ProofRequest,
      (enqueueTasks o (enqueueTasks o ts).2).2 = (enqueueTasks o ts).2 := by
  intro ts
  induction ts with
  | nil => simp [enqueueTasks, optionsEq_refl]
  | cons t rest ih =>
    by_cases hm : optionsEq t.options o = true
    · cases hr : t.result with
      | none => simp [enqueueTasks, hm, hr]
      | some r =>
        by_cases hc : (o.retry && is_err r) = true
        · simp [enqueueTasks, hm, hr, hc]
        · have hc' : (o.retry && is_err r) = false := Bool.eq_false_iff.mpr hc
          simp [enqueueTasks, hm, hr, hc']
    · have hm' : optionsEq t.options o = false := Bool.eq_false_iff.mpr hm
      simp [enqueueTasks, hm', ih]

/-- **C2.** `get_or_enqueue` case by case on the first matching task: an `Ok`
result is returned unchanged; an `Err` with `retry` set clears the result and
bumps the edition by exactly one, answering pending; an `Err` without `retry`
is returned unchanged; an absent result answers pending and changes nothing;
no match pushes a fresh task (`edition 0`, no result).  Consequently a second
identical call leaves the state (and hence every edition) unchanged. -/
theorem C2_get_or_enqueue (s : RwState) (o : ProofRequestOptions) :
    (findTaskIdx? o s.tasks = none →
      get_or_enqueue s o = (none, { s with tasks := s.tasks ++ [⟨o, none, 0⟩] })) ∧
    (∀ i t, findTaskIdx? o s.tasks = some i → s.tasks[i]? = some t →
      (∀ p, t.result = some (.ok p) → get_or_enqueue s o = (some (.ok p), s)) ∧
      (∀ e, t.result = some (.error e) → o.retry = true →
        get_or_enqueue s o =
          (none, { s with tasks := s.tasks.set i ⟨t.options, none, t.edition + 1⟩ })) ∧
      (∀ e, t.result = some (.error e) → o.retry = false →
        get_or_enqueue s o = (some (.error e), s)) ∧
      (t.result = none → get_or_enqueue s o = (none, s))) ∧
    (get_or_enqueue (get_or_enqueue s o).2 o).2 = (get_or_enqueue s o).2 := by
  refine ⟨?_, ?_, ?_⟩
  · intro h
    unfold get_or_enqueue
    rw [enqueueTasks_none o s.tasks h]
  · intro i t hi hti
    obtain ⟨u, hu, hueq, hA, hB, hC⟩ := enqueueTasks_found o s.tasks i hi
    rw [hti] at hu
    cases Option.some.inj hu
    refine ⟨?_, ?_, ?_, ?_⟩
    · intro p hr
      have h := hA (.ok p) hr (by simp [is_err])
      unfold get_or_enqueue
      rw [h]
    · intro e hr hretry
      have h := hB (.error e) hr (by simp [is_err, hretry])
      unfold get_or_enqueue
      rw [h]
    · intro e hr hretry
      have h := hA (.error e) hr (by simp [hretry])
      unfold get_or_enqueue
      rw [h]
    · intro hr
      have h := hC hr
      unfold get_or_enqueue
      rw [h]
  · show ({ s with tasks := (enqueueTasks o
      ({ s with tasks := (enqueueTasks o s.tasks).2 } : RwState).tasks).2 } : RwState) =
      { s with tasks := (enqueueTasks o s.tasks).2 }
    rw [show ({ s with tasks := (enqueueTasks o s.tasks).2 } : RwState).tasks =
      (enqueueTasks o s.tasks).2 from rfl, enqueueTasks_idem]

/-- Witness for C2: pushing into an empty queue, and the retry path clearing
an error result while bumping the edition. -/
theorem C2_witness :
    get_or_enqueue ⟨[], [], none, false⟩ (sampleOptions 0) =
      (none, { (⟨[], [], none, false⟩ : RwState) with
        tasks := [] ++ [⟨sampleOptions 0, none, 0⟩] }) ∧
    get_or_enqueue ⟨[⟨retryOptions 1, some (.error "x"), 3⟩], [], none, false⟩
        (retryOptions 1) =
      (none, { (⟨[⟨retryOptions 1, some (.error "x"), 3⟩], [], none, false⟩ : RwState) with
        tasks := [⟨retryOptions 1, some (.error "x"), 3⟩].set 0
          ⟨retryOptions 1, none, 3 + 1⟩ }) :=
  ⟨(C2_get_or_enqueue ⟨[], [], none, false⟩ (sampleOptions 0)).1 rfl,
   ((C2_get_or_enqueue ⟨[⟨retryOptions 1, some (.error "x"), 3⟩], [], none, false⟩
        (retryOptions 1)).2.1 0 ⟨retryOptions 1, some (.error "x"), 3⟩
      (by decide) rfl).2.1 "x" rfl rfl⟩

theorem publishTasks_not_found (o : ProofRequestOptions) (r : Except String Proofs) :
    ∀ ts : List ProofRequest, findTaskIdx? o ts = none → publishTasks o r ts = ts := by
  intro ts
  induction ts with
  | nil => intro _; rfl
  | cons t rest ih =>
    intro h
    simp only [findTaskIdx?] at h
    by_cases hm : optionsEq t.options o = true
    · rw [if_pos hm] at h
      cases h
    · rw [if_neg hm] at h
      simp only [publishTasks, if_neg hm, ih (Option.map_eq_none'.mp h)]

theorem publishTasks_found (o : ProofRequestOptions) (r : Except String Proofs) :
    ∀ (ts : List ProofRequest) (i : Nat), findTaskIdx? o ts = some i →
      ∃ t, ts[i]? = some t ∧
        publishTasks o r ts = ts.set i ⟨t.options, some r, t.edition + 1⟩ := by
  intro ts
  induction ts with
  | nil => intro i h; cases h
  | cons t rest ih =>
    intro i h
    simp only [findTaskIdx?] at h
    by_cases hm : optionsEq t.options o = true
    · rw [if_pos hm] at h
      cases h
      exact ⟨t, by simp, by simp [publishTasks, if_pos hm]⟩
    · rw [if_neg hm] at h
      obtain ⟨j, hj, rfl⟩ := Option.map_eq_some'.mp h
      obtain ⟨u, hu, heq⟩ := ih j hj
      exact ⟨u, by simpa [List.getElem?_cons_succ] using hu,
        by simp [publishTasks, if_neg hm, heq, List.set_cons_succ]⟩

/-- **C7.** The duty-cycle epilogue: `pending` is cleared, `obtained` reset,
the key cache untouched; if a task still matches the computed options, exactly
that task receives the result with its edition bumped by one (a single
`List.set`); otherwise the queue is fully unchanged and the result dropped. -/
theorem C7_publish_result (s : RwState) (o : ProofRequestOptions)
    (r : Except String Proofs) :
    (publish_result s o r).pending = none ∧
    (publish_result s o r).obtained = false ∧
    (publish_result s o r).pk_cache = s.pk_cache ∧
    (findTaskIdx? o s.tasks = none → (publish_result s o r).tasks = s.tasks) ∧
    (∀ i, findTaskIdx? o s.tasks = some i →
      ∃ t, s.tasks[i]? = some t ∧
        (publish_result s o r).tasks = s.tasks.set i ⟨t.options, some r, t.edition + 1⟩) := by
  refine ⟨rfl, rfl, rfl, ?_, ?_⟩
  · intro h
    exact publishTasks_not_found o r s.tasks h
  · intro i hi
    exact publishTasks_found o r s.tasks i hi

/-- Witness for C7: publishing into a queue that still holds the task, and
into one that no longer does. -/
theorem C7_witness :
    (publish_result ⟨[⟨sampleOptions 2, none, 0⟩], [], some (sampleOptions 2), true⟩
        (sampleOptions 2) (.error "boom")).tasks =
      [⟨sampleOptions 2, none, 0⟩].set 0 ⟨sampleOptions 2, some (.error "boom"), 0 + 1⟩ ∧
    (publish_result ⟨[], [], some (sampleOptions 2), true⟩ (sampleOptions 2)
        (.error "boom")).tasks = [] := by
  refine ⟨?_, ?_⟩
  · obtain ⟨t, ht, heq⟩ :=
      (C7_publish_result ⟨[⟨sampleOptions 2, none, 0⟩], [], some (sampleOptions 2), true⟩
        (sampleOptions 2) (.error "boom")).2.2.2.2 0 (by decide)
    cases Option.some.inj ht
    exact heq
  · exact (C7_publish_result ⟨[], [], some (sampleOptions 2), true⟩ (sampleOptions 2)
      (.error "boom")).2.2.2.1 rfl

end ZkevmChain

namespace ZkevmChain

theorem set_same_options_map :
    ∀ (ts : List ProofRequest) (i : Nat) (t : ProofRequest) (res) (ed),
      ts[i]? = some t →
      (ts.set i ⟨t.options, res, ed⟩).map (fun x => x.options) =
        ts.map (fun x => x.options) := by
  intro ts
  induction ts with
  | nil => intro i t res ed h; simp at h
  | cons u rest ih =>
    intro i t res ed h
    cases i with
    | zero =>
      have hut : u = t := by simpa using h
      subst hut
      simp [List.set_cons_zero]
    | succ j =>
      simp [List.set_cons_succ, ih j t res ed (by simpa using h)]

theorem tasksUnique_of_map_options {ts ts' : List ProofRequest}
    (h : ts'.map (fun x => x.options) = ts.map (fun x => x.options))
    (hu : TasksUnique ts) : TasksUnique ts' := by
  have h1 : List.Pairwise (fun a b => optionsEq a b = false)
      (ts.map (fun x => x.options)) := (List.pairwise_map).mpr hu
  rw [← h] at h1
  exact (List.pairwise_map).mp h1

theorem enqueueTasks_unique (o : ProofRequestOptions) (ts : List ProofRequest)
    (hu : TasksUnique ts) : TasksUnique (enqueueTasks o ts).2 := by
  cases hfind : findTaskIdx? o ts with
  | none =>
    rw [enqueueTasks_none o ts hfind]
    refine List.pairwise_append.mpr ⟨hu, List.pairwise_singleton _ _, ?_⟩
    intro a ha b hb
    have hb' : b = ⟨o, none, 0⟩ := by simpa using hb
    subst hb'
    exact (findTaskIdx?_none_iff o ts).mp hfind a ha
  | some i =>
    obtain ⟨t, ht, hteq, hA, hB, hC⟩ := enqueueTasks_found o ts i hfind
    cases hr : t.result with
    | none =>
      rw [hC hr]
      exact hu
    | some r =>
      rcases hcc : (o.retry && is_err r) with _ | _
      · rw [hA r hr hcc]
        exact hu
      · rw [hB r hr hcc]
        exact tasksUnique_of_map_options
          (set_same_options_map ts i t none (t.edition + 1) ht) hu

theorem mergeOne_mem_options :
    ∀ (ts : List ProofRequest) (p x : ProofRequest), x ∈ mergeOne ts p →
      (∃ y ∈ ts, x.options = y.options) ∨ x.options = p.options := by
  intro ts p
  induction ts with
  | nil =>
    intro x hx
    have : x = p := by simpa [mergeOne] using hx
    subst this
    exact .inr rfl
  | cons t rest ih =>
    intro x hx
    by_cases hm : optionsEq t.options p.options = true
    · by_cases hed : p.edition ≤ t.edition
      · simp only [mergeOne, if_pos hm, if_pos hed] at hx
        rcases List.mem_cons.mp hx with rfl | hx
        · exact .inl ⟨x, List.mem_cons_self x rest, rfl⟩
        · exact .inl ⟨x, List.mem_cons_of_mem t hx, rfl⟩
      · simp only [mergeOne, if_pos hm, if_neg hed] at hx
        rcases List.mem_cons.mp hx with rfl | hx
        · exact .inl ⟨t, List.mem_cons_self t rest, rfl⟩
        · exact .inl ⟨x, List.mem_cons_of_mem t hx, rfl⟩
    · simp only [mergeOne, if_neg hm] at hx
      rcases List.mem_cons.mp hx with rfl | hx
      · exact .inl ⟨x, List.mem_cons_self x rest, rfl⟩
      · rcases ih x hx with ⟨y, hy, hxy⟩ | hxp
        · exact .inl ⟨y, List.mem_cons_of_mem t hy, hxy⟩
        · exact .inr hxp

theorem mergeOne_unique (p : ProofRequest) :
    ∀ ts : List ProofRequest, TasksUnique ts → TasksUnique (mergeOne ts p) := by
  intro ts
  induction ts with
  | nil =>
    intro _
    simp [mergeOne, TasksUnique]
  | cons t rest ih =>
    intro hu
    rcases List.pairwise_cons.mp hu with ⟨hhead, htail⟩
    by_cases hm : optionsEq t.options p.options = true
    · by_cases hed : p.edition ≤ t.edition
      · simp only [mergeOne, if_pos hm, if_pos hed]
        exact hu
      · simp only [mergeOne, if_pos hm, if_neg hed]
        exact List.pairwise_cons.mpr ⟨fun b hb => hhead b hb, htail⟩
    · simp only [mergeOne, if_neg hm]
      refine List.pairwise_cons.mpr ⟨?_, ih htail⟩
      intro b hb
      rcases mergeOne_mem_options rest p b hb with ⟨y, hy, hby⟩ | hbp
      · rw [hby]
        exact hhead y hy
      · rw [hbp]
        exact Bool.eq_false_iff.mpr hm

theorem merge_tasks_unique (L P : List ProofRequest) (hu : TasksUnique L) :
    TasksUnique (merge_tasks L P) := by
  induction P generalizing L with
  | nil => exact hu
  | cons p P ih => exact ih (mergeOne L p) (mergeOne_unique p L hu)

theorem publishTasks_map_options (o : ProofRequestOptions) (r : Except String Proofs) :
    ∀ ts : List ProofRequest,
      (publishTasks o r ts).map (fun x => x.options) = ts.map (fun x => x.options) := by
  intro ts
  induction ts with
  | nil => rfl
  | cons t rest ih =>
    by_cases hm : optionsEq t.options o = true
    · simp [publishTasks, if_pos hm]
    · simp [publishTasks, if_neg hm, ih]

/-- **C8.** Pairwise options-uniqueness of the local queue is preserved by
`get_or_enqueue`, by `merge_tasks` against an arbitrary peer task list (even
one containing duplicate or already-known options), and by the duty-cycle's
result publication. -/
theorem C8_uniqueness_preserved (s : RwState) (o : ProofRequestOptions)
    (L P : List ProofRequest) (r : Except String Proofs) :
    (TasksUnique s.tasks → TasksUnique (get_or_enqueue s o).2.tasks) ∧
    (TasksUnique L → TasksUnique (merge_tasks L P)) ∧
    (TasksUnique s.tasks → TasksUnique (publish_result s o r).tasks) := by
  refine ⟨?_, ?_, ?_⟩
  · intro hu
    exact enqueueTasks_unique o s.tasks hu
  · intro hu
    exact merge_tasks_unique L P hu
  · intro hu
    exact tasksUnique_of_map_options (publishTasks_map_options o r s.tasks) hu

/-- Witness for C8, including a peer list with duplicated options. -/
theorem C8_witness :
    TasksUnique (get_or_enqueue ⟨[⟨sampleOptions 0, none, 0⟩], [], none, false⟩
      (sampleOptions 1)).2.tasks ∧
    TasksUnique (merge_tasks [⟨sampleOptions 0, none, 0⟩]
      [⟨sampleOptions 0, some (.error "e"), 2⟩, ⟨sampleOptions 0, none, 1⟩]) ∧
    TasksUnique (publish_result ⟨[⟨sampleOptions 0, none, 0⟩], [], none, false⟩
      (sampleOptions 0) (.error "boom")).tasks :=
  ⟨(C8_uniqueness_preserved ⟨[⟨sampleOptions 0, none, 0⟩], [], none, false⟩
      (sampleOptions 1) [] [] (.error "boom")).1 (by simp [TasksUnique]),
   (C8_uniqueness_preserved ⟨[], [], none, false⟩ (sampleOptions 1)
      [⟨sampleOptions 0, none, 0⟩]
      [⟨sampleOptions 0, some (.error "e"), 2⟩, ⟨sampleOptions 0, none, 1⟩]
      (.error "boom")).2.1 (by simp [TasksUnique]),
   (C8_uniqueness_preserved ⟨[⟨sampleOptions 0, none, 0⟩], [], none, false⟩
      (sampleOptions 0) [] [] (.error "boom")).2.2 (by simp [TasksUnique])⟩

end ZkevmChain

namespace ZkevmChain

theorem mergeOne_get (p : ProofRequest) :
    ∀ (ts : List ProofRequest) (i : Nat) (t : ProofRequest), ts[i]? = some t →
      (mergeOne ts p)[i]? = some t ∨
      (optionsEq t.options p.options = true ∧ t.edition < p.edition ∧
        (mergeOne ts p)[i]? = some ⟨t.options, p.result, p.edition⟩) := by
  intro ts
  induction ts with
  | nil => intro i t h; simp at h
  | cons u rest ih =>
    intro i t h
    cases i with
    | zero =>
      have hut : u = t := by simpa using h
      subst hut
      by_cases hm : optionsEq u.options p.options = true
      · by_cases hed : p.edition ≤ u.edition
        · left
          simp [mergeOne, if_pos hm, if_pos hed]
        · right
          exact ⟨hm, Nat.lt_of_not_le hed,
            by simp [mergeOne, if_pos hm, if_neg hed]⟩
      · left
        simp [mergeOne, if_neg hm]
    | succ j =>
      have hr : rest[j]? = some t := by simpa using h
      by_cases hm : optionsEq u.options p.options = true
      · by_cases hed : p.edition ≤ u.edition
        · left
          simp only [mergeOne, if_pos hm, if_pos hed, List.getElem?_cons_succ]
          exact hr
        · left
          simp only [mergeOne, if_pos hm, if_neg hed, List.getElem?_cons_succ]
          exact hr
      · rcases ih j t hr with h1 | ⟨hq, hlt, h2⟩
        · left
          simp only [mergeOne, if_neg hm, List.getElem?_cons_succ]
          exact h1
        · right
          refine ⟨hq, hlt, ?_⟩
          simp only [mergeOne, if_neg hm, List.getElem?_cons_succ]
          exact h2

theorem mergeOne_get_mono (p : ProofRequest) (ts : List ProofRequest) (i : Nat)
    (t : ProofRequest) (h : ts[i]? = some t) :
    ∃ t', (mergeOne ts p)[i]? = some t' ∧ t'.options = t.options ∧
      t.edition ≤ t'.edition := by
  rcases mergeOne_get p ts i t h with h1 | ⟨_, hlt, h2⟩
  · exact ⟨t, h1, rfl, Nat.le_refl _⟩
  · exact ⟨_, h2, rfl, Nat.le_of_lt hlt⟩

theorem merge_get_mono (P : List ProofRequest) :
    ∀ (ts : List ProofRequest) (i : Nat) (t : ProofRequest), ts[i]? = some t →
      ∃ t', (merge_tasks ts P)[i]? = some t' ∧ t'.options = t.options ∧
        t.edition ≤ t'.edition := by
  induction P with
  | nil => intro ts i t h; exact ⟨t, h, rfl, Nat.le_refl _⟩
  | cons p P ih =>
    intro ts i t h
    obtain ⟨u, hu, huo, hue⟩ := mergeOne_get_mono p ts i t h
    obtain ⟨v, hv, hvo, hve⟩ := ih (mergeOne ts p) i u hu
    exact ⟨v, hv, hvo.trans huo, hue.trans hve⟩

theorem mergeOne_get_of_ne (p : ProofRequest) (ts : List ProofRequest) (i : Nat)
    (t : ProofRequest) (h : ts[i]? = some t)
    (hne : optionsEq t.options p.options = false) : (mergeOne ts p)[i]? = some t := by
  rcases mergeOne_get p ts i t h with h1 | ⟨hq, _, _⟩
  · exact h1
  · rw [hq] at hne
    cases hne

theorem merge_get_of_ne (P : List ProofRequest) :
    ∀ (ts : List ProofRequest) (i : Nat) (t : ProofRequest), ts[i]? = some t →
      (∀ p ∈ P, optionsEq t.options p.options = false) →
      (merge_tasks ts P)[i]? = some t := by
  induction P with
  | nil => intro ts i t h _; exact h
  | cons p P ih =>
    intro ts i t h hne
    exact ih (mergeOne ts p) i t
      (mergeOne_get_of_ne p ts i t h (hne p (List.mem_cons_self p P)))
      (fun q hq => hne q (List.mem_cons_of_mem p hq))

theorem mergeOne_get_first (p : ProofRequest) :
    ∀ (ts : List ProofRequest) (i : Nat) (t : ProofRequest), ts[i]? = some t →
      optionsEq t.options p.options = true →
      (∀ j u, j < i → ts[j]? = some u → optionsEq u.options p.options = false) →
      (mergeOne ts p)[i]? =
        some (if p.edition ≤ t.edition then t else ⟨t.options, p.result, p.edition⟩) := by
  intro ts
  induction ts with
  | nil => intro i t h _ _; simp at h
  | cons u rest ih =>
    intro i t h hm hfirst
    cases i with
    | zero =>
      have hut : u = t := by simpa using h
      subst hut
      by_cases hed : p.edition ≤ u.edition
      · simp [mergeOne, if_pos hm, if_pos hed, if_pos hed]
      · simp [mergeOne, if_pos hm, if_neg hed, if_neg hed]
    | succ j =>
      have hu0 : optionsEq u.options p.options = false :=
        hfirst 0 u (Nat.succ_pos j) (by simp)
      have hu0' : ¬ optionsEq u.options p.options = true := by simp [hu0]
      simp only [mergeOne, if_neg hu0', List.getElem?_cons_succ]
      exact ih j t (by simpa using h) hm
        (fun k v hk hv => hfirst (k + 1) v (Nat.succ_lt_succ hk) (by simpa using hv))

theorem mergeOne_append_of_ne (p : ProofRequest) :
    ∀ ts : List ProofRequest, (∀ x ∈ ts, optionsEq x.options p.options = false) →
      mergeOne ts p = ts ++ [p] := by
  intro ts
  induction ts with
  | nil => intro _; rfl
  | cons t rest ih =>
    intro h
    have ht : optionsEq t.options p.options = false := h t (List.mem_cons_self t rest)
    simp only [mergeOne, if_neg (by simp [ht] : ¬ optionsEq t.options p.options = true)]
    rw [ih (fun x hx => h x (List.mem_cons_of_mem t hx))]
    rfl

theorem merge_mem_options (P : List ProofRequest) :
    ∀ (ts : List ProofRequest) (x : ProofRequest), x ∈ merge_tasks ts P →
      (∃ y ∈ ts, x.options = y.options) ∨ ∃ p ∈ P, x.options = p.options := by
  induction P with
  | nil => intro ts x hx; exact .inl ⟨x, hx, rfl⟩
  | cons p P ih =>
    intro ts x hx
    rcases ih (mergeOne ts p) x hx with ⟨y, hy, hxy⟩ | ⟨q, hq, hxq⟩
    · rcases mergeOne_mem_options ts p y hy with ⟨z, hz, hyz⟩ | hyp
      · exact .inl ⟨z, hz, hxy.trans hyz⟩
      · exact .inr ⟨p, List.mem_cons_self p P, hxy.trans hyp⟩
    · exact .inr ⟨q, List.mem_cons_of_mem p hq, hxq⟩

theorem tasksUnique_getElem? {L : List ProofRequest} (hL : TasksUnique L)
    {i j : Nat} {ti tj : ProofRequest} (hij : i < j)
    (hi : L[i]? = some ti) (hj : L[j]? = some tj) :
    optionsEq ti.options tj.options = false := by
  obtain ⟨hi', hieq⟩ := List.getElem?_eq_some.mp hi
  obtain ⟨hj', hjeq⟩ := List.getElem?_eq_some.mp hj
  have h := List.pairwise_iff_getElem.mp hL i j hi' hj' hij
  rwa [hieq, hjeq] at h

theorem merge_both_present (L P : List ProofRequest) (hL : TasksUnique L)
    (hP : TasksUnique P) (i : Nat) (tl tp : ProofRequest) (hi : L[i]? = some tl)
    (htp : tp ∈ P) (heq : optionsEq tl.options tp.options = true) :
    (merge_tasks L P)[i]? =
      some (if tl.edition < tp.edition then ⟨tl.options, tp.result, tp.edition⟩
            else tl) := by
  obtain ⟨P₁, P₂, rfl⟩ := List.append_of_mem htp
  rcases List.pairwise_append.mp hP with ⟨hP₁, hP₂', hcross⟩
  rcases List.pairwise_cons.mp hP₂' with ⟨htpP₂, hP₂⟩
  have hP₁ne : ∀ q ∈ P₁, optionsEq tl.options q.options = false := by
    intro q hq
    rcases hval : optionsEq tl.options q.options with _ | _
    · rfl
    · have h1 : optionsEq q.options tp.options = true :=
        optionsEq_trans (optionsEq_symm hval) heq
      have h2 := hcross q hq tp (List.mem_cons_self tp P₂)
      rw [h1] at h2
      cases h2
  have hstep1 : (merge_tasks L P₁)[i]? = some tl := merge_get_of_ne P₁ L i tl hi hP₁ne
  obtain ⟨hlen, -⟩ := List.getElem?_eq_some.mp hi
  have hfirst : ∀ j u, j < i → (merge_tasks L P₁)[j]? = some u →
      optionsEq u.options tp.options = false := by
    intro j u hj hu
    have hjlt : j < L.length := Nat.lt_trans hj hlen
    obtain ⟨v, hv⟩ : ∃ v, L[j]? = some v :=
      ⟨_, List.getElem?_eq_some.mpr ⟨hjlt, rfl⟩⟩
    obtain ⟨u', hu', hu'o, -⟩ := merge_get_mono P₁ L j v hv
    rw [hu] at hu'
    cases Option.some.inj hu'
    rcases hval : optionsEq u.options tp.options with _ | _
    · rfl
    · have hvtp : optionsEq v.options tp.options = true := by
        rw [← hu'o]
        exact hval
      have hvtl : optionsEq v.options tl.options = true :=
        optionsEq_trans hvtp (optionsEq_symm heq)
      have hfalse := tasksUnique_getElem? hL hj hv hi
      rw [hvtl] at hfalse
      cases hfalse
  have hstep2 : (mergeOne (merge_tasks L P₁) tp)[i]? =
      some (if tp.edition ≤ tl.edition then tl
            else ⟨tl.options, tp.result, tp.edition⟩) :=
    mergeOne_get_first tp (merge_tasks L P₁) i tl hstep1 heq hfirst
  generalize hgen : (if tp.edition ≤ tl.edition then tl
      else (⟨tl.options, tp.result, tp.edition⟩ : ProofRequest)) = v at hstep2
  have hvo : v.options = tl.options := by
    rw [← hgen]
    split <;> rfl
  have hP₂ne : ∀ q ∈ P₂, optionsEq v.options q.options = false := by
    intro q hq
    rcases hval : optionsEq v.options q.options with _ | _
    · rfl
    · have h1 : optionsEq tp.options q.options = true := by
        refine optionsEq_trans (optionsEq_symm heq) ?_
        rw [← hvo]
        exact hval
      have h2 := htpP₂ q hq
      rw [h1] at h2
      cases h2
  have hstep3 : (merge_tasks (mergeOne (merge_tasks L P₁) tp) P₂)[i]? = some v :=
    merge_get_of_ne P₂ _ i v hstep2 hP₂ne
  have hfold : merge_tasks L (P₁ ++ tp :: P₂) =
      merge_tasks (mergeOne (merge_tasks L P₁) tp) P₂ := by
    simp [merge_tasks, List.foldl_append]
  rw [hfold, hstep3]
  congr 1
  rw [← hgen]
  by_cases hlt : tl.edition < tp.edition
  · rw [if_neg (Nat.not_le.mpr hlt), if_pos hlt]
  · rw [if_pos (Nat.not_lt.mp hlt), if_neg hlt]

theorem merge_new_task (L P : List ProofRequest) (hP : TasksUnique P) :
    ∀ tp ∈ P, (∀ tl ∈ L, optionsEq tl.options tp.options = false) →
      tp ∈ merge_tasks L P := by
  intro tp htp hno
  obtain ⟨P₁, P₂, rfl⟩ := List.append_of_mem htp
  rcases List.pairwise_append.mp hP with ⟨hP₁, hP₂', hcross⟩
  rcases List.pairwise_cons.mp hP₂' with ⟨htpP₂, hP₂⟩
  have hA : ∀ x ∈ merge_tasks L P₁, optionsEq x.options tp.options = false := by
    intro x hx
    rcases merge_mem_options P₁ L x hx with ⟨y, hy, hxy⟩ | ⟨q, hq, hxq⟩
    · rw [hxy]
      exact hno y hy
    · rw [hxq]
      exact hcross q hq tp (List.mem_cons_self tp P₂)
  have happ : mergeOne (merge_tasks L P₁) tp = merge_tasks L P₁ ++ [tp] :=
    mergeOne_append_of_ne tp _ hA
  have hidx : (merge_tasks L P₁ ++ [tp])[(merge_tasks L P₁).length]? = some tp :=
    List.getElem?_concat_length _ _
  have hkeep : (merge_tasks (merge_tasks L P₁ ++ [tp]) P₂)[(merge_tasks L P₁).length]? =
      some tp := merge_get_of_ne P₂ _ _ tp hidx htpP₂
  simp only [merge_tasks] at happ
  have hfold : merge_tasks L (P₁ ++ tp :: P₂) =
      merge_tasks (merge_tasks L P₁ ++ [tp]) P₂ := by
    simp only [merge_tasks, List.foldl_append, List.foldl_cons]
    rw [happ]
  rw [hfold]
  exact List.getElem?_mem hkeep

/-- **C3.** After `merge_tasks`: a task present on both sides ends with
edition `max(local, peer)` and takes the peer's result exactly when the peer's
edition is strictly greater; a peer task matching nothing local is copied
verbatim; no local task's edition decreases (positions of local tasks and
their options are preserved). -/
theorem C3_merge_tasks (L P : List ProofRequest) (hL : TasksUnique L)
    (hP : TasksUnique P) :
    (∀ (i : Nat) (tl tp : ProofRequest), L[i]? = some tl → tp ∈ P →
      optionsEq tl.options tp.options = true →
      ∃ t' : ProofRequest, (merge_tasks L P)[i]? = some t' ∧ t'.options = tl.options ∧
        t'.edition = max tl.edition tp.edition ∧
        t'.result = (if tl.edition < tp.edition then tp.result else tl.result)) ∧
    (∀ tp ∈ P, (∀ tl ∈ L, optionsEq tl.options tp.options = false) →
      tp ∈ merge_tasks L P) ∧
    (∀ (i : Nat) (tl : ProofRequest), L[i]? = some tl →
      ∃ t' : ProofRequest, (merge_tasks L P)[i]? = some t' ∧
        t'.options = tl.options ∧ tl.edition ≤ t'.edition) := by
  refine ⟨?_, merge_new_task L P hP, ?_⟩
  · intro i tl tp hi htp heq
    have h := merge_both_present L P hL hP i tl tp hi htp heq
    by_cases hlt : tl.edition < tp.edition
    · rw [if_pos hlt] at h
      refine ⟨_, h, rfl, ?_, ?_⟩
      · show tp.edition = max tl.edition tp.edition
        omega
      · show tp.result = _
        rw [if_pos hlt]
    · rw [if_neg hlt] at h
      refine ⟨tl, h, rfl, ?_, ?_⟩
      · show tl.edition = max tl.edition tp.edition
        omega
      · rw [if_neg hlt]
  · intro i tl hi
    exact merge_get_mono P L i tl hi

/-- Witness for C3: a shared task where the peer's edition wins, and a
brand-new peer task copied over. -/
theorem C3_witness :
    (∃ t', (merge_tasks [⟨sampleOptions 0, none, 2⟩]
        [⟨retryOptions 0, some (.error "e"), 5⟩])[0]? = some t' ∧
      t'.options = (⟨sampleOptions 0, none, 2⟩ : ProofRequest).options ∧
      t'.edition = max 2 5 ∧
      t'.result = (if 2 < 5 then some (.error "e") else none)) ∧
    (⟨sampleOptions 1, none, 7⟩ : ProofRequest) ∈
      merge_tasks [⟨sampleOptions 0, none, 2⟩] [⟨sampleOptions 1, none, 7⟩] :=
  ⟨(C3_merge_tasks [⟨sampleOptions 0, none, 2⟩] [⟨retryOptions 0, some (.error "e"), 5⟩]
      (by simp [TasksUnique]) (by simp [TasksUnique])).1 0 ⟨sampleOptions 0, none, 2⟩
      ⟨retryOptions 0, some (.error "e"), 5⟩ (by simp) (by simp) (by decide),
   (C3_merge_tasks [⟨sampleOptions 0, none, 2⟩] [⟨sampleOptions 1, none, 7⟩]
      (by simp [TasksUnique]) (by simp [TasksUnique])).2.1 ⟨sampleOptions 1, none, 7⟩
      (by simp) (by decide)⟩

end ZkevmChain

namespace ZkevmChain

/-- **C5 amended.** For a mock-flagged task whose block used gas 100 the gas
table selects the `0..=63000` row, so the mock branch reports `k = 20` (not
19); with a positive measured mock-prover time, `aux.mock` is positive, every
other instrumentation timing is 0, the proof bytes are empty and the
aggregation result keeps all its defaults except the pre-set label. -/
theorem C5_amended_mock (o : ProofRequestOptions) (cfg : CircuitConfig)
    (inst : List Nat) (d : Nat) (hm : o.mock = true)
    (hcfg : match_circuit_params 100 = some cfg) (hd : 0 < d % 2 ^ 32) :
    ∃ cp ap : ProofResult,
      compute_proof_mock o cfg inst (.ok ()) d = .ok (cfg, cp, ap) ∧
      cp.k = 20 ∧ cp.aux.mock = d % 2 ^ 32 ∧ 0 < cp.aux.mock ∧
      cp.aux.vk = 0 ∧ cp.aux.pk = 0 ∧ cp.aux.proof = 0 ∧ cp.aux.verify = 0 ∧
      cp.aux.circuit = 0 ∧ cp.aux.protocol = 0 ∧
      cp.proof.length = 0 ∧ cp.instance_values = inst ∧
      ap.proof = [] ∧ ap.instance_values = [] ∧ ap.k = 0 ∧ ap.randomness = [] ∧
      ap.aux = default ∧
      ap.label = o.circuit ++ "-" ++ toString cfg.block_gas_limit ++ "-a" := by
  rw [show match_circuit_params 100 =
      some { block_gas_limit := 63000, max_txs := 3, max_calldata := 10500,
             max_bytecode := 24634, max_rws := 476052, max_copy_rows := 0,
             max_exp_steps := 0, min_k := 20, pad_to := 476052,
             min_k_aggregation := 26, keccak_padding := 336000 } from rfl] at hcfg
  cases Option.some.inj hcfg
  exact ⟨_, _, rfl, rfl, rfl, hd, rfl, rfl, rfl, rfl, rfl, rfl, rfl, rfl, rfl,
    rfl, rfl, rfl, rfl, rfl⟩

/-- Witness for C5 amended at gas 100 with a 5 ms mock run. -/
theorem C5_witness :
    ∃ cp ap : ProofResult,
      compute_proof_mock (sampleOptions 10) config100 [] (.ok ()) 5 =
        .ok (config100, cp, ap) ∧
      cp.k = 20 ∧ cp.aux.mock = 5 % 2 ^ 32 ∧ 0 < cp.aux.mock ∧
      cp.aux.vk = 0 ∧ cp.aux.pk = 0 ∧ cp.aux.proof = 0 ∧ cp.aux.verify = 0 ∧
      cp.aux.circuit = 0 ∧ cp.aux.protocol = 0 ∧
      cp.proof.length = 0 ∧ cp.instance_values = [] ∧
      ap.proof = [] ∧ ap.instance_values = [] ∧ ap.k = 0 ∧ ap.randomness = [] ∧
      ap.aux = default ∧
      ap.label = (sampleOptions 10).circuit ++ "-" ++
        toString config100.block_gas_limit ++ "-a" :=
  C5_amended_mock (sampleOptions 10) config100 [] 5 rfl rfl (by decide)

end ZkevmChain
